import Mathlib

/-!
Verification development for the alpine-cloud-images configuration
resolution engine and per-image release state machine.

The definitions below are shallow embeddings of the Python source:
  - `Value`, `mergeValue`, `mergeMaps` embed the HOCON-fragment data model
    and `mergedeep.merge(..., strategy=mergedeep.Strategy.ADDITIVE)` as used
    by `ImageConfig._merge` (src/image_config.py line 150).
  - `popKey`, `whenFold`, `resolveWhen` embed the conditional-merge (WHEN)
    loop of `ImageConfigManager._resolve` (src/image_config_manager.py
    lines 110-114).
-/

namespace ACI

/-- A configuration value: a nested mapping (modelled as an association list
in insertion order, like a Python dict), a list, a string scalar, or null.
Other scalar types (numbers, booleans) behave exactly like strings under
merging, so strings stand in for all non-collection scalars. -/
inductive Value where
  | vmap : List (String × Value) → Value
  | vlist : List Value → Value
  | vstr : String → Value
  | vnull : Value
deriving Repr

/-- First-occurrence lookup in an association list (Python `dict` access;
keys are unique in a real dict, making first-occurrence exact). -/
def getKey? : List (String × Value) → String → Option Value
  | [], _ => none
  | (k1, v1) :: rest, k => if k1 = k then some v1 else getKey? rest k

/-- `d[k] = v` on an association list: replace the first binding of `k`,
or append a new binding if absent (Python dict assignment). -/
def setKey : List (String × Value) → String → Value → List (String × Value)
  | [], k, v => [(k, v)]
  | (k1, v1) :: rest, k, v =>
    if k1 = k then (k1, v) :: rest else (k1, v1) :: setKey rest k v

mutual

/-- `mergedeep` value combination under `Strategy.ADDITIVE`: two mappings
merge recursively; two lists are combined additively (destination extended
with the source); any other combination is replaced by the source value. -/
def mergeValue : Value → Value → Value
  | .vmap d, .vmap s => .vmap (mergeMaps d s)
  | .vlist d, .vlist s => .vlist (d ++ s)
  | _, s => s

/-- `mergedeep._deepmerge(dst, src)`: iterate the source keys in order; a key
present in both is combined with `mergeValue`; a fresh key is appended. -/
def mergeMaps : List (String × Value) → List (String × Value) → List (String × Value)
  | dst, [] => dst
  | dst, (k, v) :: rest =>
    match getKey? dst k with
    | some dv => mergeMaps (setKey dst k (mergeValue dv v)) rest
    | none => mergeMaps (dst ++ [(k, v)]) rest

end

/-- Keys of a fragment, in order. -/
def keysOf (m : List (String × Value)) : List String := m.map Prod.fst

theorem getKey?_eq_none_of_not_mem {m : List (String × Value)} {k : String}
    (h : k ∉ keysOf m) : getKey? m k = none := by
  induction m with
  | nil => rfl
  | cons p rest ih =>
    obtain ⟨k1, v1⟩ := p
    simp only [keysOf, List.map_cons, List.mem_cons, not_or] at h
    have h1 : k1 ≠ k := fun hh => h.1 hh.symm
    have h2 : getKey? rest k = none := ih h.2
    simp [getKey?, h1, h2]

theorem getKey?_append (a b : List (String × Value)) (k : String) :
    getKey? (a ++ b) k = match getKey? a k with
      | some v => some v
      | none => getKey? b k := by
  induction a with
  | nil => simp [getKey?]
  | cons p rest ih =>
    obtain ⟨k1, v1⟩ := p
    by_cases h : k1 = k <;> simp [getKey?, h, ih]

theorem getKey?_setKey_self (m : List (String × Value)) (k : String) (v : Value) :
    getKey? (setKey m k v) k = some v := by
  induction m with
  | nil => simp [setKey, getKey?]
  | cons p rest ih =>
    obtain ⟨k1, v1⟩ := p
    by_cases h : k1 = k <;> simp [setKey, getKey?, h, ih]

theorem getKey?_setKey_ne (m : List (String × Value)) {k k1 : String} (v : Value)
    (h : k1 ≠ k) : getKey? (setKey m k v) k1 = getKey? m k1 := by
  have h' : k ≠ k1 := h.symm
  induction m with
  | nil => simp [setKey, getKey?, h']
  | cons p rest ih =>
    obtain ⟨k2, v2⟩ := p
    by_cases h2 : k2 = k
    · subst h2
      simp [setKey, getKey?, h']
    · simp [setKey, getKey?, h2, ih]

/-- Key-by-key description of an additive deep merge: a key found in both
fragments carries the `mergeValue` combination of the two bindings; a key in
only one fragment keeps that fragment's binding.  The source fragment is
required to have unique keys (Python dicts always do). -/
theorem getKey?_mergeMaps (src : List (String × Value)) (hsrc : (keysOf src).Nodup)
    (dst : List (String × Value)) (k : String) :
    getKey? (mergeMaps dst src) k = match getKey? src k with
      | none => getKey? dst k
      | some sv => match getKey? dst k with
        | none => some sv
        | some dv => some (mergeValue dv sv) := by
  induction src generalizing dst with
  | nil => simp [mergeMaps, getKey?]
  | cons p rest ih =>
    obtain ⟨k1, v1⟩ := p
    simp only [keysOf, List.map_cons, List.nodup_cons] at hsrc
    obtain ⟨hk1, hrest⟩ := hsrc
    have hrest' : (keysOf rest).Nodup := hrest
    by_cases hkk : k1 = k
    · subst hkk
      have hnone : getKey? rest k1 = none :=
        getKey?_eq_none_of_not_mem (by simpa [keysOf] using hk1)
      cases hd : getKey? dst k1 with
      | some dv =>
        simp only [mergeMaps, hd]
        rw [ih hrest' (setKey dst k1 (mergeValue dv v1))]
        simp [getKey?, hnone, getKey?_setKey_self, hd]
      | none =>
        simp only [mergeMaps, hd]
        rw [ih hrest' (dst ++ [(k1, v1)])]
        simp [getKey?, hnone, getKey?_append, hd]
    · have hkk' : k ≠ k1 := fun hh => hkk hh.symm
      cases hd : getKey? dst k1 with
      | some dv =>
        simp only [mergeMaps, hd]
        rw [ih hrest' (setKey dst k1 (mergeValue dv v1))]
        rw [getKey?_setKey_ne dst (mergeValue dv v1) hkk']
        simp [getKey?, hkk]
      | none =>
        simp only [mergeMaps, hd]
        rw [ih hrest' (dst ++ [(k1, v1)])]
        have hap : getKey? (dst ++ [(k1, v1)]) k = getKey? dst k := by
          rw [getKey?_append]
          cases hdk : getKey? dst k with
          | some v => rfl
          | none => simp [getKey?, hkk]
        rw [hap]
        simp [getKey?, hkk]

/-- Length of a list value (0 for non-lists); separates unequal list values. -/
def vsize : Value → Nat
  | .vlist vs => vs.length
  | _ => 0

/-- C1 counterexample: merging fragment `{x: [a]}` then `{x: [b]}` with
`mergedeep.Strategy.ADDITIVE` (the strategy `ImageConfig._merge` uses) leaves
the concatenation `[a, b]` at key `x`, not the later fragment's value `[b]`:
list values are concatenated, not replaced wholesale. -/
theorem merge_list_counterexample :
    mergeMaps [("x", .vlist [.vstr "a"])] [("x", .vlist [.vstr "b"])]
      = [("x", .vlist [.vstr "a", .vstr "b"])] ∧
    Value.vlist [.vstr "a", .vstr "b"] ≠ Value.vlist [.vstr "b"] := by
  refine ⟨rfl, fun h => ?_⟩
  have hs := congrArg vsize h
  simp [vsize] at hs

/-- C1 (amended): fragment merge is deep: for a key present in both
fragments, two map values merge recursively key-by-key, two list values are
concatenated (the earlier fragment's elements followed by the later's), and
any other combination is replaced wholesale by the later fragment's value.
(The frozen claim said lists are never concatenated; the code's
`mergedeep.Strategy.ADDITIVE` concatenates them — see the counterexample and
the source comment "release is also appended to name & description arrays"
in src/image_config_manager.py.) -/
theorem merge_deep_additive (A B : List (String × Value)) (k : String) (vA vB : Value)
    (hB : (keysOf B).Nodup) (hA : getKey? A k = some vA) (hBk : getKey? B k = some vB) :
    getKey? (mergeMaps A B) k = some (mergeValue vA vB) ∧
    (∀ mA mB, vA = .vmap mA → vB = .vmap mB → mergeValue vA vB = .vmap (mergeMaps mA mB)) ∧
    (∀ lA lB, vA = .vlist lA → vB = .vlist lB → mergeValue vA vB = .vlist (lA ++ lB)) ∧
    ((∀ mA mB, ¬(vA = .vmap mA ∧ vB = .vmap mB)) →
      (∀ lA lB, ¬(vA = .vlist lA ∧ vB = .vlist lB)) → mergeValue vA vB = vB) := by
  refine ⟨?_, ?_, ?_, ?_⟩
  · rw [getKey?_mergeMaps B hB A k, hBk, hA]
  · rintro mA mB rfl rfl; rfl
  · rintro lA lB rfl rfl; rfl
  · intro hm hl
    cases vA <;> cases vB <;> first
      | rfl
      | (exact absurd ⟨rfl, rfl⟩ (hm _ _))
      | (exact absurd ⟨rfl, rfl⟩ (hl _ _))

/-- Witness for `merge_deep_additive` at concrete nested fragments. -/
theorem merge_deep_additive_witness :
    getKey? (mergeMaps [("k", .vmap [("a", .vstr "1")])] [("k", .vmap [("b", .vstr "2")])]) "k"
      = some (mergeValue (.vmap [("a", .vstr "1")]) (.vmap [("b", .vstr "2")])) ∧
    (∀ mA mB, Value.vmap [("a", .vstr "1")] = .vmap mA → Value.vmap [("b", .vstr "2")] = .vmap mB →
      mergeValue (.vmap [("a", .vstr "1")]) (.vmap [("b", .vstr "2")]) = .vmap (mergeMaps mA mB)) ∧
    (∀ lA lB, Value.vmap [("a", .vstr "1")] = .vlist lA → Value.vmap [("b", .vstr "2")] = .vlist lB →
      mergeValue (.vmap [("a", .vstr "1")]) (.vmap [("b", .vstr "2")]) = .vlist (lA ++ lB)) ∧
    ((∀ mA mB, ¬(Value.vmap [("a", .vstr "1")] = .vmap mA ∧ Value.vmap [("b", .vstr "2")] = .vmap mB)) →
      (∀ lA lB, ¬(Value.vmap [("a", .vstr "1")] = .vlist lA ∧ Value.vmap [("b", .vstr "2")] = .vlist lB)) →
      mergeValue (.vmap [("a", .vstr "1")]) (.vmap [("b", .vstr "2")]) = .vmap [("b", .vstr "2")]) :=
  merge_deep_additive [("k", .vmap [("a", .vstr "1")])] [("k", .vmap [("b", .vstr "2")])] "k"
    (.vmap [("a", .vstr "1")]) (.vmap [("b", .vstr "2")]) (by decide) (by rfl) (by rfl)

/-! ### Conditional-merge (WHEN) resolution

`ImageConfigManager._resolve` runs, after merging each dimension fragment:
```
while (when := image_config._pop('WHEN', None)):
    for when_keys, when_conf in when.items():
        if len(set(when_keys.split(' ')) & dim_keys) > 0:
            image_config._merge(when_conf)
```
-/

/-- Python `dict.pop(k, None)`: the value bound to the first occurrence of
`k` (or `none`), together with the mapping with that binding removed. -/
def popKey : List (String × Value) → String → Option Value × List (String × Value)
  | [], _ => (none, [])
  | (k1, v1) :: rest, k =>
    if k1 = k then (some v1, rest)
    else
      let r := popKey rest k
      (r.1, (k1, v1) :: r.2)

/-- Python `str.split(' ')`: split at every single space, keeping empty
pieces, as `when_keys.split(' ')` does. -/
def splitSpaceAux : List Char → List Char → List String
  | [], acc => [String.mk acc.reverse]
  | c :: cs, acc =>
    if c = ' ' then String.mk acc.reverse :: splitSpaceAux cs []
    else splitSpaceAux cs (c :: acc)

def pySplitSpace (s : String) : List String := splitSpaceAux s.data []

example : pySplitSpace "a b" = ["a", "b"] := by rfl

example : pySplitSpace "x86_64" = ["x86_64"] := by rfl

/-- One pass over the entries of a popped WHEN block, in order: an entry
whose whitespace-separated token list intersects the cell's dimension keys
has its fragment merged in (a non-mapping fragment is a type error, as
`mergedeep` would raise iterating it). -/
def whenFold (dimKeys : List String) :
    List (String × Value) → List (String × Value) → Except String (List (String × Value))
  | acc, [] => .ok acc
  | acc, (tokens, conf) :: rest =>
    if (pySplitSpace tokens).any (fun t => dimKeys.contains t) then
      match conf with
      | .vmap m => whenFold dimKeys (mergeMaps acc m) rest
      | _ => .error "TypeError"
    else whenFold dimKeys acc rest

/-- The `while (when := pop('WHEN', None)):` loop.  A falsy popped value
(absent key, `null`, empty mapping/list/string) ends the loop; a truthy
mapping is folded over and the loop re-scans the accumulated config for WHEN
keys newly introduced by the merged fragments.  The source loop terminates
on all finite configurations; the fuel argument makes that explicit, and the
theorems below hold for every sufficient fuel. -/
def resolveWhen : Nat → List String → List (String × Value) →
    Except String (List (String × Value))
  | 0, _, _ => .error "WHEN resolution did not terminate"
  | fuel + 1, dimKeys, cfg =>
    match popKey cfg "WHEN" with
    | (none, _) => .ok cfg
    | (some w, cfg1) =>
      match w with
      | .vmap entries =>
        if entries.isEmpty then .ok cfg1
        else
          match whenFold dimKeys cfg1 entries with
          | .error e => .error e
          | .ok cfg2 => resolveWhen fuel dimKeys cfg2
      | .vnull => .ok cfg1
      | .vstr s => if s.isEmpty then .ok cfg1 else .error "AttributeError"
      | .vlist vs => if vs.isEmpty then .ok cfg1 else .error "AttributeError"

theorem popKey_of_not_has {cfg : List (String × Value)} {k : String}
    (h : getKey? cfg k = none) : popKey cfg k = (none, cfg) := by
  induction cfg with
  | nil => rfl
  | cons p rest ih =>
    obtain ⟨k1, v1⟩ := p
    by_cases h1 : k1 = k
    · simp [getKey?, h1] at h
    · simp only [getKey?, if_neg h1] at h
      simp [popKey, h1, ih h]

theorem popKey_append {rest : List (String × Value)} {k : String} (v : Value)
    (h : getKey? rest k = none) : popKey (rest ++ [(k, v)]) k = (some v, rest) := by
  induction rest with
  | nil => simp [popKey]
  | cons p tl ih =>
    obtain ⟨k1, v1⟩ := p
    by_cases h1 : k1 = k
    · simp [getKey?, h1] at h
    · simp only [getKey?, if_neg h1] at h
      simp [popKey, h1, ih h]

theorem resolveWhen_of_not_has {fuel : Nat} {dimKeys : List String}
    {cfg : List (String × Value)} (h : getKey? cfg "WHEN" = none) :
    resolveWhen (fuel + 1) dimKeys cfg = .ok cfg := by
  simp [resolveWhen, popKey_of_not_has h]

theorem getKey?_mergeMaps_none {dst src : List (String × Value)} {k : String}
    (hsrc : (keysOf src).Nodup) (hd : getKey? dst k = none)
    (hs : getKey? src k = none) : getKey? (mergeMaps dst src) k = none := by
  rw [getKey?_mergeMaps src hsrc dst k, hs, hd]

theorem mergeMaps_singleton_absent {dst : List (String × Value)} {k : String}
    (v : Value) (h : getKey? dst k = none) :
    mergeMaps dst [(k, v)] = dst ++ [(k, v)] := by
  simp [mergeMaps, h]

theorem contains_true_of_mem {l : List String} {x : String} (h : x ∈ l) :
    l.contains x = true :=
  List.elem_iff.mpr h

theorem contains_false_of_not_mem {l : List String} {x : String} (h : x ∉ l) :
    l.contains x = false := by
  cases hc : l.contains x with
  | false => rfl
  | true => exact absurd (List.elem_iff.mp hc) h

/-- One iteration of the WHEN loop, when the popped value is a non-empty
mapping. -/
theorem resolveWhen_step {dk : List String} {cfg cfg1 entries : List (String × Value)}
    (fuel : Nat) (hp : popKey cfg "WHEN" = (some (.vmap entries), cfg1))
    (hne : entries.isEmpty = false) :
    resolveWhen (fuel + 1) dk cfg = match whenFold dk cfg1 entries with
      | .error e => .error e
      | .ok cfg2 => resolveWhen fuel dk cfg2 := by
  simp only [resolveWhen, hp, hne, Bool.false_eq_true, if_false]

/-- C4: WHEN token matching has OR semantics inside one whitespace-separated
token list (the fragment under a guard whose token list splits to `[a, b]`,
or to `[b, a]` — matching is independent of token order — is merged exactly
when the cell's dimension-key set contains `a` or `b`), and AND semantics
across nesting levels (the fragment `Y` under `WHEN ta: {WHEN tb: Y}` with
`ta` ↦ `[a]`, `tb` ↦ `[b]` is merged exactly when both `a` and `b` are
present).  Stated for every sufficient fuel, over any configuration whose
popped WHEN block has the given shape and whose other parts are WHEN-free
with duplicate-free keys. -/
theorem when_or_and_semantics
    (dk : List String) (a b tok tokRev ta tb : String)
    (cfg cfgRev cfgN rest X Y : List (String × Value))
    (hX : (keysOf X).Nodup) (hXW : getKey? X "WHEN" = none)
    (hY : (keysOf Y).Nodup) (hYW : getKey? Y "WHEN" = none)
    (hRW : getKey? rest "WHEN" = none)
    (htok : pySplitSpace tok = [a, b]) (htokRev : pySplitSpace tokRev = [b, a])
    (hta : pySplitSpace ta = [a]) (htb : pySplitSpace tb = [b])
    (hpop : popKey cfg "WHEN" = (some (.vmap [(tok, .vmap X)]), rest))
    (hpopRev : popKey cfgRev "WHEN" = (some (.vmap [(tokRev, .vmap X)]), rest))
    (hpopN : popKey cfgN "WHEN" =
      (some (.vmap [(ta, .vmap [("WHEN", .vmap [(tb, .vmap Y)])])]), rest))
    (f : Nat) :
    resolveWhen (f + 1 + 1) dk cfg
      = .ok (if a ∈ dk ∨ b ∈ dk then mergeMaps rest X else rest) ∧
    resolveWhen (f + 1 + 1) dk cfgRev
      = .ok (if a ∈ dk ∨ b ∈ dk then mergeMaps rest X else rest) ∧
    resolveWhen (f + 1 + 1 + 1) dk cfgN
      = .ok (if a ∈ dk ∧ b ∈ dk then mergeMaps rest Y else rest) := by
  have hMergedX : getKey? (mergeMaps rest X) "WHEN" = none :=
    getKey?_mergeMaps_none hX hRW hXW
  have hMergedY : getKey? (mergeMaps rest Y) "WHEN" = none :=
    getKey?_mergeMaps_none hY hRW hYW
  have main1 : ∀ (tk : String) (cfgX : List (String × Value)),
      pySplitSpace tk = [a, b] ∨ pySplitSpace tk = [b, a] →
      popKey cfgX "WHEN" = (some (.vmap [(tk, .vmap X)]), rest) →
      resolveWhen (f + 1 + 1) dk cfgX
        = .ok (if a ∈ dk ∨ b ∈ dk then mergeMaps rest X else rest) := by
    intro tk cfgX hsplit hp
    rw [resolveWhen_step (f + 1) hp rfl]
    by_cases hmem : a ∈ dk ∨ b ∈ dk
    · have hcc : (pySplitSpace tk).any (fun t => dk.contains t) = true := by
        have h1 : (dk.contains a || dk.contains b) = true := by
          rcases hmem with hm | hm
          · rw [contains_true_of_mem hm, Bool.true_or]
          · rw [contains_true_of_mem hm, Bool.or_true]
        have h2 : (dk.contains b || dk.contains a) = true := by
          rw [Bool.or_comm]; exact h1
        rcases hsplit with h | h <;> rw [h] <;>
          simp only [List.any_cons, List.any_nil, Bool.or_false] <;> assumption
      simp only [whenFold, hcc, if_true]
      rw [if_pos hmem]
      exact resolveWhen_of_not_has hMergedX
    · rw [not_or] at hmem
      have hca := contains_false_of_not_mem hmem.1
      have hcb := contains_false_of_not_mem hmem.2
      have hcc : (pySplitSpace tk).any (fun t => dk.contains t) = false := by
        rcases hsplit with h | h <;> rw [h] <;>
          simp only [List.any_cons, List.any_nil, Bool.or_false, hca, hcb, Bool.or_self]
      simp only [whenFold, hcc, Bool.false_eq_true, if_false]
      rw [if_neg (not_or.mpr hmem)]
      exact resolveWhen_of_not_has hRW
  refine ⟨main1 tok cfg (Or.inl htok) hpop, main1 tokRev cfgRev (Or.inr htokRev) hpopRev, ?_⟩
  rw [resolveWhen_step (f + 1 + 1) hpopN rfl]
  by_cases ha : a ∈ dk
  · have hcc : (pySplitSpace ta).any (fun t => dk.contains t) = true := by
      rw [hta]
      simp only [List.any_cons, List.any_nil, Bool.or_false]
      exact contains_true_of_mem ha
    simp only [whenFold, hcc, if_true]
    rw [mergeMaps_singleton_absent _ hRW]
    have hpop2 : popKey (rest ++ [("WHEN", Value.vmap [(tb, Value.vmap Y)])]) "WHEN"
        = (some (Value.vmap [(tb, Value.vmap Y)]), rest) := popKey_append _ hRW
    rw [resolveWhen_step (f + 1) hpop2 rfl]
    by_cases hb : b ∈ dk
    · have hcc2 : (pySplitSpace tb).any (fun t => dk.contains t) = true := by
        rw [htb]
        simp only [List.any_cons, List.any_nil, Bool.or_false]
        exact contains_true_of_mem hb
      simp only [whenFold, hcc2, if_true]
      rw [if_pos ⟨ha, hb⟩]
      exact resolveWhen_of_not_has hMergedY
    · have hcc2 : (pySplitSpace tb).any (fun t => dk.contains t) = false := by
        rw [htb]
        simp only [List.any_cons, List.any_nil, Bool.or_false]
        exact contains_false_of_not_mem hb
      simp only [whenFold, hcc2, Bool.false_eq_true, if_false]
      rw [if_neg (fun hh => hb hh.2)]
      exact resolveWhen_of_not_has hRW
  · have hcc : (pySplitSpace ta).any (fun t => dk.contains t) = false := by
      rw [hta]
      simp only [List.any_cons, List.any_nil, Bool.or_false]
      exact contains_false_of_not_mem ha
    simp only [whenFold, hcc, Bool.false_eq_true, if_false]
    rw [if_neg (fun hh => ha hh.1)]
    exact resolveWhen_of_not_has hRW

/-- Dimension keys of a sample cell, for the WHEN witness. -/
def c4dk : List String := ["x86_64", "uefi"]

def c4rest : List (String × Value) := [("name", .vstr "alpine")]

def c4X : List (String × Value) := [("fw", .vstr "bios")]

def c4Y : List (String × Value) := [("fw", .vstr "uefi")]

def c4cfg : List (String × Value) :=
  c4rest ++ [("WHEN", Value.vmap [("aarch64 x86_64", .vmap c4X)])]

def c4cfgRev : List (String × Value) :=
  c4rest ++ [("WHEN", Value.vmap [("x86_64 aarch64", .vmap c4X)])]

def c4cfgN : List (String × Value) :=
  c4rest ++ [("WHEN", Value.vmap [("aarch64", .vmap [("WHEN", .vmap [("x86_64", .vmap c4Y)])])])]

/-- Witness for `when_or_and_semantics` at a concrete cell. -/
theorem when_or_and_semantics_witness :
    resolveWhen 2 c4dk c4cfg
      = .ok (if "aarch64" ∈ c4dk ∨ "x86_64" ∈ c4dk then mergeMaps c4rest c4X else c4rest) ∧
    resolveWhen 2 c4dk c4cfgRev
      = .ok (if "aarch64" ∈ c4dk ∨ "x86_64" ∈ c4dk then mergeMaps c4rest c4X else c4rest) ∧
    resolveWhen 3 c4dk c4cfgN
      = .ok (if "aarch64" ∈ c4dk ∧ "x86_64" ∈ c4dk then mergeMaps c4rest c4Y else c4rest) :=
  when_or_and_semantics c4dk "aarch64" "x86_64" "aarch64 x86_64" "x86_64 aarch64"
    "aarch64" "x86_64" c4cfg c4cfgRev c4cfgN c4rest c4X c4Y
    (by decide) (by rfl) (by decide) (by rfl) (by rfl)
    (by rfl) (by rfl) (by rfl) (by rfl) (by rfl) (by rfl) (by rfl) 0

/-! ### Image Config release state machine

Embedding of `ImageConfig.refresh_state` / `ImageConfig.load_metadata`
(src/image_config.py lines 268-380, 452-481).  The filesystem, the Artifact
Store and the Cloud Adapter are external collaborators; an `Env` value
records what they would answer, and the `Effect` trace records every external call the state machine performs. -/

/-- Lifecycle fields of one Image Config.  `import_id`/`import_region` can be
genuinely absent from the object (popped), which differs from being present
with value `None`: the outer `Option` is key presence, the inner one the
Python value. -/
structure ICState where
  built : Option String
  uploaded : Option String
  imported : Option String
  published : Option String
  released : Option String
  artifacts : Option String
  import_id : Option (Option String)
  import_region : Option (Option String)
  revision : Nat
deriving Repr, DecidableEq

/-- Python truthiness of an optional string field (`None` and `""` falsy). -/
def truthy : Option String → Bool
  | none => false
  | some s => !s.isEmpty

/-- Content of a metadata YAML file, as overlaid by `load_local_metadata`
(`self.__dict__ |= loaded`, after dropping `name`/`Name`): an outer `some`
means the key occurs in the file and overwrites the in-memory field. -/
structure MetaFile where
  built : Option (Option String)
  uploaded : Option (Option String)
  imported : Option (Option String)
  published : Option (Option String)
  released : Option (Option String)
  artifacts : Option (Option String)
  import_id : Option (Option String)
  import_region : Option (Option String)
  revision : Option Nat
deriving Repr, DecidableEq

/-- `self.__dict__ |= loaded` restricted to the lifecycle fields. -/
def applyMeta (s : ICState) (m : MetaFile) : ICState :=
  { built := m.built.getD s.built
    uploaded := m.uploaded.getD s.uploaded
    imported := m.imported.getD s.imported
    published := m.published.getD s.published
    released := m.released.getD s.released
    artifacts := m.artifacts.getD s.artifacts
    import_id := match m.import_id with
      | none => s.import_id
      | some v => some v
    import_region := match m.import_region with
      | none => s.import_region
      | some v => some v
    revision := m.revision.getD s.revision }

/-- External calls made by one `refresh_state` run, in order. -/
inductive Effect where
  | storageList
  | storageRetrieve
  | unlinkMetadata
  | cloudDeleteImage
  | storageRemove
  | rmtree
deriving Repr, DecidableEq

/-- What the collaborators would answer during one run: the Artifact Store
listing (`none` models a raised `RuntimeError`), existence of the local
metadata file before any retrieve, whether a retrieve would succeed, the
metadata file content, existence of the local build dir, existence of the
image/metadata files of the post-increment revision, and the cloud
adapter's `ACTIONS` capability set. -/
structure Env where
  listing : Option (List String)
  oldMetaExists : Bool
  retrieveOk : Bool
  oldMeta : MetaFile
  localDirExists : Bool
  newImageExists : Bool
  newMetaExists : Bool
  newMeta : MetaFile
  cloudActions : List String
deriving Repr, DecidableEq

/-- Strip of trailing characters drawn from `'.yaml'` — Python
`y.rstrip('.yaml')` strips a character *set*, not a suffix. -/
def pyRstripYaml (s : String) : String :=
  String.mk ((s.data.reverse.dropWhile (fun c => c ∈ ['.', 'y', 'a', 'm', 'l'])).reverse)

/-- The characters after the last `r`, if any — `s.rsplit('r', 1)[1]`,
raising (here: `none`) when the string has no `r`. -/
def afterLastRAux : List Char → Option (List Char)
  | [] => none
  | c :: cs =>
    match afterLastRAux cs with
    | some r => some r
    | none => if c = 'r' then some cs else none

def afterLastR (s : String) : Option String := (afterLastRAux s.data).map String.mk

def digitsToNat? (cs : List Char) : Option Nat :=
  if cs ≠ [] ∧ cs.all Char.isDigit then
    some (cs.foldl (fun acc c => acc * 10 + (c.toNat - 48)) 0)
  else none

/-- Python `int(s)`: optional surrounding spaces, optional sign, digits. -/
def pyInt (s : String) : Option Int :=
  let t := ((s.data.dropWhile (fun c => c = ' ')).reverse.dropWhile (fun c => c = ' ')).reverse
  match t with
  | '-' :: cs => (digitsToNat? cs).map (fun n => -(n : Int))
  | '+' :: cs => (digitsToNat? cs).map (fun n => (n : Int))
  | cs => (digitsToNat? cs).map (fun n => (n : Int))

/-- `int(y.rstrip('.yaml').rsplit('r', 1)[1])` — the revision number parsed
from one listed metadata filename. -/
def parseRevisionFile (y : String) : Option Int :=
  (afterLastR (pyRstripYaml y)).bind pyInt

/-- The `for y in revision_yamls` maximum-revision loop; a parse failure is
a raised `ValueError`. -/
def latestRevisionGo : Int → List String → Except String Int
  | acc, [] => .ok acc
  | acc, y :: ys =>
    match parseRevisionFile y with
    | none => .error "ValueError"
    | some yr => latestRevisionGo (if yr > acc then yr else acc) ys

example : parseRevisionFile "alpine-3.19.1-x86_64-bios-tiny-r3.yaml" = some 3 := by rfl

/-- Result of `load_metadata`: the updated state, the `new` flag, whether
the (current-revision) metadata file exists locally afterwards, and the
storage calls made. -/
structure LoadOut where
  state : ICState
  isNew : Bool
  metaNow : Bool
  effects : List Effect
deriving Repr, DecidableEq

/-- `ImageConfig.load_metadata(step)` (src/image_config.py lines 452-481):
unless `step == 'final'`, list the remote metadata files matching the image
name with a revision wildcard (a `RuntimeError` is caught and treated as
brand-new), set `revision` to 0 when new and to the parsed maximum
otherwise, retrieve the remote metadata file when not new and missing
locally (failure only logged), and finally overlay any local metadata
file. -/
def loadMetadata (step : String) (env : Env) (s0 : ICState) : Except String LoadOut :=
  if step != "final" then
    match env.listing with
    | none =>
      let s1 := { s0 with revision := 0 }
      let metaNow := env.oldMetaExists
      .ok ⟨if metaNow then applyMeta s1 env.oldMeta else s1, true, metaNow, [.storageList]⟩
    | some ys =>
      (latestRevisionGo 0 ys).map (fun latest =>
        let s1 := { s0 with revision := latest.toNat }
        if ys.isEmpty then
          ⟨if env.oldMetaExists then applyMeta s1 env.oldMeta else s1, true,
            env.oldMetaExists, [.storageList]⟩
        else if env.oldMetaExists then
          ⟨applyMeta s1 env.oldMeta, false, true, [.storageList]⟩
        else
          ⟨if env.retrieveOk then applyMeta s1 env.oldMeta else s1, false, env.retrieveOk,
            [.storageList, .storageRetrieve]⟩)
  else
    let metaNow := env.oldMetaExists
    .ok ⟨if metaNow then applyMeta s0 env.oldMeta else s0, true, metaNow, []⟩

/-- The ordered step set of the release pipeline (`ImageConfig.STEPS`). -/
def STEPS : List String := ["local", "upload", "import", "publish", "release"]

/-- `ImageConfig._is_step_or_earlier(s, step)`: `'state'` admits every step;
a target outside the step set admits none; otherwise compare positions. -/
def isStepOrEarlier (s step : String) : Bool :=
  if step == "state" then true
  else if STEPS.contains step then decide (STEPS.indexOf s ≤ STEPS.indexOf step)
  else false

/-- Which completed steps the rollback block queued for undoing. -/
structure Undo where
  blocked : Bool
  imp : Bool
  upl : Bool
  loc : Bool
deriving Repr, DecidableEq

/-- The `if step == 'rollback':` block: blocked outright when `released` or
`published` is truthy; otherwise queue-and-clear `import` (when imported and
the cloud can import), `upload` (when uploaded), `local` (when built and the
local build dir exists). -/
def rollbackPhase (step : String) (env : Env) (s1 : ICState) : Undo × ICState :=
  if step == "rollback" then
    if truthy s1.released || truthy s1.published then (⟨true, false, false, false⟩, s1)
    else
      let pImp := truthy s1.imported && env.cloudActions.contains "import"
      let sa := if pImp then { s1 with imported := none } else s1
      let pUpl := truthy sa.uploaded
      let sb := if pUpl then { sa with uploaded := none } else sa
      let pLoc := truthy sb.built && env.localDirExists
      let sc := if pLoc then { sb with built := none } else sb
      (⟨false, pImp, pUpl, pLoc⟩, sc)
  else (⟨false, false, false, false⟩, s1)

/-- The revise reset: bump `revision`, null every lifecycle field
(`DEFAULT_OBJ`), pop `import_id`/`import_region`. -/
def reviseReset (s : ICState) : ICState :=
  { s with revision := s.revision + 1
           built := none
           uploaded := none
           imported := none
           published := none
           released := none
           artifacts := none
           import_id := none
           import_region := none }

/-- Lines 292-296 and 335-358: start from the steps ≤ target, drop steps
that are already satisfied or not supported by the cloud, and finally filter
once more by the target step. -/
def computeActions (step : String) (s : ICState) (cloudActs : List String) : List String :=
  let a0 := STEPS.filter (fun st => isStepOrEarlier st step)
  let a1 := if truthy s.built then a0.erase "local" else a0
  let a2 := if truthy s.uploaded then a1.erase "upload" else a1
  let a3 := if truthy s.imported || !cloudActs.contains "import" then a2.erase "import" else a2
  let a4 :=
    if !cloudActs.contains "publish" then a3.erase "publish"
    else if step == "release" && truthy s.published then a3.erase "publish"
    else a3
  a4.filter (fun st => isStepOrEarlier st step)

/-- Result of one `refresh_state` run. -/
structure RefreshOut where
  state : ICState
  actions : List String
  effects : List Effect
deriving Repr, DecidableEq

/-- Final part of `refresh_state`: compute the action list, then (except for
the `state` dry run) execute the queued undos — delete the imported image
and null `import_id`/`import_region`, remove the uploaded artifacts, remove
the local build directory. -/
def finishRefresh (step : String) (env : Env) (u : Undo) (s3 : ICState)
    (effPre : List Effect) : RefreshOut :=
  let actions := computeActions step s3 env.cloudActions
  if step == "state" then ⟨s3, actions, effPre⟩
  else
    let s4 := if u.imp then { s3 with import_id := some none, import_region := some none }
              else s3
    let eff := (if u.imp then [Effect.cloudDeleteImage] else [])
      ++ (if u.upl then [Effect.storageRemove] else [])
      ++ (if u.loc then [Effect.rmtree] else [])
    ⟨s4, actions, effPre ++ eff⟩

/-- `refresh_state` after metadata reconciliation: run the rollback block,
run the revise block (deleting the old metadata file — a missing file
raises `FileNotFoundError`), compute the pending actions, execute undos. -/
def refreshCore (step : String) (revise : Bool) (env : Env) (lm : LoadOut) :
    Except String RefreshOut :=
  let ur := rollbackPhase step env lm.state
  let u := ur.1
  let s2 := ur.2
  if revise && (truthy s2.published || truthy s2.released) then
    if lm.metaNow then
      let s3 := reviseReset s2
      if env.newImageExists then
        .ok (finishRefresh step env u
          (if env.newMetaExists then applyMeta s3 env.newMeta else s3)
          (lm.effects ++ [.unlinkMetadata]))
      else
        .ok (finishRefresh step env ⟨u.blocked, u.imp, u.upl, true⟩ s3
          (lm.effects ++ [.unlinkMetadata]))
    else .error "FileNotFoundError"
  else .ok (finishRefresh step env u s2 lm.effects)

/-- `ImageConfig.refresh_state(step, revise)` (src/image_config.py lines
287-380): reconcile metadata with `load_metadata`, then `refreshCore`. -/
def refreshState (step : String) (revise : Bool) (env : Env) (s0 : ICState) :
    Except String RefreshOut :=
  match loadMetadata step env s0 with
  | .error e => .error e
  | .ok lm => refreshCore step revise env lm

theorem refreshState_eq {step : String} {revise : Bool} {env : Env} {s0 : ICState}
    {lm : LoadOut} (hlm : loadMetadata step env s0 = .ok lm) :
    refreshState step revise env s0 = refreshCore step revise env lm := by
  unfold refreshState
  rw [hlm]

/-- The all-null lifecycle state of a brand-new cell. -/
def icNull : ICState := ⟨none, none, none, none, none, none, none, none, 0⟩

/-- An empty metadata overlay (no keys present). -/
def metaNull : MetaFile := ⟨none, none, none, none, none, none, none, none, none⟩

/-- A quiet environment: empty listing, no local files, a cloud supporting
both import and publish. -/
def envNull : Env := ⟨some [], false, false, metaNull, false, false, false, metaNull,
  ["import", "publish"]⟩

/-- The successful result of a concrete `refreshState` run (dummy on error);
used to state closed witnesses. -/
def runRefresh (step : String) (revise : Bool) (env : Env) (s : ICState) : RefreshOut :=
  match refreshState step revise env s with
  | .ok o => o
  | .error _ => ⟨icNull, [], []⟩

/-- The successful result of a concrete `loadMetadata` run (dummy on error). -/
def runLoad (step : String) (env : Env) (s : ICState) : LoadOut :=
  match loadMetadata step env s with
  | .ok o => o
  | .error _ => ⟨icNull, true, false, []⟩

theorem finishRefresh_actions (step : String) (env : Env) (u : Undo) (s : ICState)
    (e : List Effect) :
    (finishRefresh step env u s e).actions = computeActions step s env.cloudActions := by
  simp only [finishRefresh]
  split <;> rfl

/-- Every successful `refresh_state` run reports the action list computed by
the pending-action section at some intermediate state. -/
theorem refreshState_actions {step : String} {revise : Bool} {env : Env} {s0 : ICState}
    {out : RefreshOut} (h : refreshState step revise env s0 = .ok out) :
    ∃ s3, out.actions = computeActions step s3 env.cloudActions := by
  cases hlm : loadMetadata step env s0 with
  | error e =>
    unfold refreshState at h
    rw [hlm] at h
    exact Except.noConfusion h
  | ok lm =>
    rw [refreshState_eq hlm] at h
    simp only [refreshCore] at h
    repeat' split at h
    all_goals
      first
        | exact Except.noConfusion h
        | (injection h with h2
           subst h2
           exact ⟨_, finishRefresh_actions _ _ _ _ _⟩)

theorem computeActions_mem {step : String} {s : ICState} {acts : List String} {a : String}
    (ha : a ∈ computeActions step s acts) :
    a ∈ STEPS ∧ isStepOrEarlier a step = true := by
  simp only [computeActions] at ha
  rw [List.mem_filter] at ha
  obtain ⟨h4, hstep⟩ := ha
  refine ⟨?_, hstep⟩
  have h0 : ∀ x ∈ STEPS.filter (fun st => isStepOrEarlier st step), x ∈ STEPS :=
    fun x hx => (List.mem_filter.mp hx).1
  repeat' split at h4
  all_goals
    repeat
      first
        | exact h0 _ h4
        | replace h4 := List.mem_of_mem_erase h4

/-- C5: for every Image Config, environment and target step, a successful
`refresh_state(step)` reports only actions drawn from the fixed step set,
and when the target is one of the pipeline steps every reported action sits
at or before the target in the fixed order; the meta-target `state` admits
the full step set (shown by a run reporting all five steps). -/
theorem refresh_actions_within_target :
    (∀ (step : String) (revise : Bool) (env : Env) (s0 : ICState) (out : RefreshOut),
      refreshState step revise env s0 = .ok out →
      ∀ a ∈ out.actions, a ∈ STEPS ∧
        (step ∈ STEPS → STEPS.indexOf a ≤ STEPS.indexOf step)) ∧
    (∃ out, refreshState "state" false envNull icNull = .ok out ∧ out.actions = STEPS) := by
  constructor
  · intro step revise env s0 out hok a ha
    obtain ⟨s3, hact⟩ := refreshState_actions hok
    rw [hact] at ha
    obtain ⟨hmem, hord⟩ := computeActions_mem ha
    refine ⟨hmem, fun hstep => ?_⟩
    have hns : (step == "state") = false := by
      have : step ≠ "state" := by
        intro hh
        rw [hh] at hstep
        exact absurd hstep (by decide)
      simp [this]
    have hcs : STEPS.contains step = true := contains_true_of_mem hstep
    rw [isStepOrEarlier, hns] at hord
    simp only [Bool.false_eq_true, if_false, hcs, if_true, decide_eq_true_eq] at hord
    exact hord
  · exact ⟨runRefresh "state" false envNull icNull, by rfl, by rfl⟩

/-- Witness for the universally quantified half of
`refresh_actions_within_target`, at target step `local` on a null state. -/
theorem refresh_actions_within_target_witness :
    "local" ∈ STEPS ∧ ("local" ∈ STEPS → STEPS.indexOf "local" ≤ STEPS.indexOf "local") :=
  refresh_actions_within_target.1 "local" false envNull icNull
    (runRefresh "local" false envNull icNull) (by rfl) "local" (by decide)

/-- C10: `refresh_state("rollback", revise=false)` always ends with an empty
action list — `rollback` is neither `state` nor a member of the ordered step
set, so no step passes the `_is_step_or_earlier` filters. -/
theorem rollback_actions_empty (env : Env) (s0 : ICState) (out : RefreshOut)
    (h : refreshState "rollback" false env s0 = .ok out) : out.actions = [] := by
  obtain ⟨s3, hact⟩ := refreshState_actions h
  rw [hact]
  have h0 : STEPS.filter (fun st => isStepOrEarlier st "rollback") = [] := by decide
  simp [computeActions, h0]

/-- Witness for `rollback_actions_empty` at a concrete published state. -/
theorem rollback_actions_empty_witness :
    (runRefresh "rollback" false envNull icNull).actions = [] :=
  rollback_actions_empty envNull icNull (runRefresh "rollback" false envNull icNull) (by rfl)

/-- A published Image Config, as persisted after a publish step. -/
def icPublished : ICState := ⟨some "2024-01-01T00:00:00", some "2024-01-02T00:00:00",
  some "2024-01-03T00:00:00", some "2024-01-04T00:00:00", none, some "artifact-map",
  some (some "ami-0123"), some (some "us-east-1"), 3⟩

/-- The storage-call trace of `load_metadata` is one of three shapes. -/
theorem loadMetadata_effects_cases {step : String} {env : Env} {s0 : ICState} {lm : LoadOut}
    (h : loadMetadata step env s0 = .ok lm) :
    lm.effects = [] ∨ lm.effects = [Effect.storageList]
      ∨ lm.effects = [Effect.storageList, Effect.storageRetrieve] := by
  simp only [loadMetadata] at h
  split at h
  · cases hl : env.listing with
    | none =>
      simp only [hl] at h
      injection h with h2
      subst h2
      right; left; rfl
    | some ys =>
      simp only [hl] at h
      cases hgo : latestRevisionGo 0 ys with
      | error e =>
        rw [hgo] at h
        exact Except.noConfusion h
      | ok latest =>
        rw [hgo] at h
        simp only [Except.map] at h
        injection h with h2
        subst h2
        repeat' split
        all_goals
          first
            | exact Or.inl rfl
            | exact Or.inr (Or.inl rfl)
            | exact Or.inr (Or.inr rfl)
  · injection h with h2
    subst h2
    exact Or.inl rfl

/-- Every storage call made by `load_metadata` is a listing or a retrieve. -/
theorem loadMetadata_effects {step : String} {env : Env} {s0 : ICState} {lm : LoadOut}
    (h : loadMetadata step env s0 = .ok lm) :
    ∀ e ∈ lm.effects, e = Effect.storageList ∨ e = Effect.storageRetrieve := by
  rcases loadMetadata_effects_cases h with h1 | h1 | h1 <;> rw [h1]
  · intro e he
    exact absurd he (List.not_mem_nil e)
  · intro e he
    rw [List.mem_singleton] at he
    exact Or.inl he
  · intro e he
    rcases List.mem_cons.mp he with h2 | h2
    · exact Or.inl h2
    · rw [List.mem_singleton] at h2
      exact Or.inr h2

/-- C2 counterexample: on a published Image Config, `refresh_state("rollback")`
still calls the Artifact Store: `load_metadata` runs first and lists the
remote metadata files (`storage.list`), so the run's effect trace contains a
storage call even though the rollback itself is blocked. -/
theorem rollback_published_storage_call :
    truthy icPublished.published = true ∧
    refreshState "rollback" false envNull icPublished
      = .ok (runRefresh "rollback" false envNull icPublished) ∧
    Effect.storageList ∈ (runRefresh "rollback" false envNull icPublished).effects :=
  ⟨by decide, by rfl, by decide⟩

/-- C2 (amended): on an Image Config whose `published` field is set (after
metadata reconciliation), `refresh_state("rollback")` performs no undo: the
state is exactly the reconciled state (none of `imported`/`uploaded`/`built`
is cleared), and no delete side effect runs — the only external calls of the
whole invocation are the `load_metadata` Artifact Store calls (a listing and
possibly a metadata retrieve); no Cloud Adapter delete, no artifact removal,
no local-directory removal, no metadata unlink. -/
theorem rollback_published_no_undo (env : Env) (s0 : ICState) (lm : LoadOut)
    (out : RefreshOut)
    (hload : loadMetadata "rollback" env s0 = .ok lm)
    (hpub : truthy lm.state.published = true)
    (hok : refreshState "rollback" false env s0 = .ok out) :
    out.state = lm.state ∧ out.effects = lm.effects ∧
    (∀ e ∈ out.effects, e = Effect.storageList ∨ e = Effect.storageRetrieve) := by
  rw [refreshState_eq hload] at hok
  have hroll : rollbackPhase "rollback" env lm.state = (⟨true, false, false, false⟩, lm.state) := by
    simp [rollbackPhase, hpub]
  simp only [refreshCore, hroll] at hok
  rw [if_neg (by simp)] at hok
  injection hok with h2
  subst h2
  have hfr : finishRefresh "rollback" env ⟨true, false, false, false⟩ lm.state lm.effects
      = ⟨lm.state, computeActions "rollback" lm.state env.cloudActions, lm.effects⟩ := by
    simp [finishRefresh]
  rw [hfr]
  exact ⟨rfl, rfl, loadMetadata_effects hload⟩

/-- Witness for `rollback_published_no_undo` on a concrete published cell. -/
theorem rollback_published_no_undo_witness :
    (runRefresh "rollback" false envNull icPublished).state
        = (runLoad "rollback" envNull icPublished).state ∧
    (runRefresh "rollback" false envNull icPublished).effects
        = (runLoad "rollback" envNull icPublished).effects ∧
    (∀ e ∈ (runRefresh "rollback" false envNull icPublished).effects,
      e = Effect.storageList ∨ e = Effect.storageRetrieve) :=
  rollback_published_no_undo envNull icPublished (runLoad "rollback" envNull icPublished)
    (runRefresh "rollback" false envNull icPublished) (by rfl) (by decide) (by rfl)

/-- C3: on an Image Config whose reconciled state has `published` (or
`released`) set, `refresh_state(step, revise=true)` — given that the local
metadata file exists (so its deletion succeeds) and the local image artifact
for the new revision does not already exist — ends with `revision` equal to
the reconciled revision plus 1, all of `built`/`uploaded`/`imported`/
`published`/`released`/`artifacts` null, and `import_id`/`import_region`
removed from the object. -/
theorem revise_published_resets (step : String) (env : Env) (s0 : ICState) (lm : LoadOut)
    (out : RefreshOut)
    (hload : loadMetadata step env s0 = .ok lm)
    (hpub : (truthy lm.state.published || truthy lm.state.released) = true)
    (hmeta : lm.metaNow = true)
    (himg : env.newImageExists = false)
    (hok : refreshState step true env s0 = .ok out) :
    out.state.revision = lm.state.revision + 1 ∧
    out.state.built = none ∧ out.state.uploaded = none ∧ out.state.imported = none ∧
    out.state.published = none ∧ out.state.released = none ∧
    out.state.artifacts = none ∧ out.state.import_id = none ∧
    out.state.import_region = none := by
  rw [refreshState_eq hload] at hok
  have hb : (truthy lm.state.released || truthy lm.state.published) = true := by
    rw [Bool.or_comm]; exact hpub
  have hroll2 : (rollbackPhase step env lm.state).2 = lm.state := by
    unfold rollbackPhase
    by_cases hs : (step == "rollback") = true
    · rw [if_pos hs, if_pos hb]
    · rw [if_neg hs]
  have himp : (rollbackPhase step env lm.state).1.imp = false := by
    unfold rollbackPhase
    by_cases hs : (step == "rollback") = true
    · rw [if_pos hs, if_pos hb]
    · rw [if_neg hs]
  simp only [refreshCore, hroll2] at hok
  rw [if_pos (by simp [hpub])] at hok
  rw [if_pos hmeta] at hok
  rw [if_neg (by simp [himg])] at hok
  injection hok with h2
  subst h2
  have hst : (finishRefresh step env
      ⟨(rollbackPhase step env lm.state).1.blocked, (rollbackPhase step env lm.state).1.imp,
        (rollbackPhase step env lm.state).1.upl, true⟩
      (reviseReset lm.state) (lm.effects ++ [.unlinkMetadata])).state
      = reviseReset lm.state := by
    simp only [finishRefresh]
    by_cases hs : (step == "state") = true
    · rw [if_pos hs]
    · rw [if_neg hs]
      simp only [himp, Bool.false_eq_true, if_false]
  rw [hst]
  simp [reviseReset]

/-- Environment of a cell with a local metadata file present and nothing
remote. -/
def envMeta : Env := ⟨some [], true, false, metaNull, true, false, false, metaNull,
  ["import", "publish"]⟩

/-- Witness for `revise_published_resets` on a concrete published cell. -/
theorem revise_published_resets_witness :
    (runRefresh "upload" true envMeta icPublished).state.revision
        = (runLoad "upload" envMeta icPublished).state.revision + 1 ∧
    (runRefresh "upload" true envMeta icPublished).state.built = none ∧
    (runRefresh "upload" true envMeta icPublished).state.uploaded = none ∧
    (runRefresh "upload" true envMeta icPublished).state.imported = none ∧
    (runRefresh "upload" true envMeta icPublished).state.published = none ∧
    (runRefresh "upload" true envMeta icPublished).state.released = none ∧
    (runRefresh "upload" true envMeta icPublished).state.artifacts = none ∧
    (runRefresh "upload" true envMeta icPublished).state.import_id = none ∧
    (runRefresh "upload" true envMeta icPublished).state.import_region = none :=
  revise_published_resets "upload" envMeta icPublished (runLoad "upload" envMeta icPublished)
    (runRefresh "upload" true envMeta icPublished) (by rfl) (by decide) (by rfl) (by rfl)
    (by rfl)

/-- A cell whose reconciled state is built but neither uploaded nor
imported. -/
def icBuilt : ICState := ⟨some "2024-01-01T00:00:00", none, none, none, none, none,
  none, none, 0⟩

/-- A built and (spuriously) imported, but not uploaded cell. -/
def icBuiltImported : ICState := ⟨some "2024-01-01T00:00:00", none,
  some "2024-01-03T00:00:00", none, none, none, some (some "ami-0123"), none, 0⟩

/-- Environment whose cloud supports import but not publish. -/
def envImportOnly : Env := ⟨some [], false, false, metaNull, false, false, false, metaNull,
  ["import"]⟩

/-- C6 counterexample: the claim's preconditions (built set, uploaded null,
cloud lacking publish but supporting import) do not fix the action list —
a cell that additionally has `imported` set drops the `import` action and
refresh with target `release` reports `["upload", "release"]`, not
`["upload", "import", "release"]`. -/
theorem release_actions_counterexample :
    truthy icBuiltImported.built = true ∧ icBuiltImported.uploaded = none ∧
    envImportOnly.cloudActions.contains "publish" = false ∧
    envImportOnly.cloudActions.contains "import" = true ∧
    refreshState "release" false envImportOnly icBuiltImported
      = .ok (runRefresh "release" false envImportOnly icBuiltImported) ∧
    (runRefresh "release" false envImportOnly icBuiltImported).actions
      = ["upload", "release"] ∧
    ["upload", "release"] ≠ ["upload", "import", "release"] :=
  ⟨by decide, by rfl, by rfl, by rfl, by rfl, by decide, by decide⟩

/-- C6 (amended): for a reconciled state with `built` set, `uploaded` null
and additionally `imported` null, when the cloud capability set lacks
`publish` but includes `import`, `refresh_state` with target step `release`
reports exactly `["upload", "import", "release"]`: `local` is dropped
because the image is already built, and `publish` is dropped for lack of
capability. -/
theorem release_actions_capability (env : Env) (s0 : ICState) (lm : LoadOut)
    (out : RefreshOut)
    (hload : loadMetadata "release" env s0 = .ok lm)
    (hb : truthy lm.state.built = true)
    (hu : lm.state.uploaded = none)
    (hi : lm.state.imported = none)
    (hpubcap : env.cloudActions.contains "publish" = false)
    (himpcap : env.cloudActions.contains "import" = true)
    (hok : refreshState "release" false env s0 = .ok out) :
    out.actions = ["upload", "import", "release"] := by
  rw [refreshState_eq hload] at hok
  have hroll : rollbackPhase "release" env lm.state = (⟨false, false, false, false⟩, lm.state) := by
    simp [rollbackPhase]
  simp only [refreshCore, hroll] at hok
  rw [if_neg (by simp)] at hok
  injection hok with h2
  subst h2
  rw [finishRefresh_actions]
  have h1 : truthy lm.state.uploaded = false := by rw [hu]; rfl
  have h2 : truthy lm.state.imported = false := by rw [hi]; rfl
  have hm1 : "import" ∈ env.cloudActions := List.elem_iff.mp himpcap
  have hm2 : "publish" ∉ env.cloudActions := by
    intro hmem
    rw [contains_true_of_mem hmem] at hpubcap
    exact Bool.noConfusion hpubcap
  simp [computeActions, hb, h1, h2, hm1, hm2]
  decide

/-- Witness for `release_actions_capability` on a concrete built cell. -/
theorem release_actions_capability_witness :
    (runRefresh "release" false envImportOnly icBuilt).actions
      = ["upload", "import", "release"] :=
  release_actions_capability envImportOnly icBuilt (runLoad "release" envImportOnly icBuilt)
    (runRefresh "release" false envImportOnly icBuilt) (by rfl) (by decide) (by rfl) (by rfl)
    (by rfl) (by rfl) (by rfl)

/-- The revision-maximum loop computes the `max`-fold of the parsed
revisions, when every filename parses. -/
theorem latestRevisionGo_eq_max (ys : List String) (acc : Int) (rs : List Int)
    (h : ys.mapM parseRevisionFile = some rs) :
    latestRevisionGo acc ys = .ok (rs.foldl max acc) := by
  induction ys generalizing acc rs with
  | nil =>
    simp only [List.mapM_nil, Option.pure_def, Option.some.injEq] at h
    subst h
    rfl
  | cons y tl ih =>
    rw [List.mapM_cons] at h
    cases hy : parseRevisionFile y with
    | none => rw [hy] at h; simp at h
    | some r =>
      rw [hy] at h
      cases htl : tl.mapM parseRevisionFile with
      | none => rw [htl] at h; simp at h
      | some rs2 =>
        rw [htl] at h
        simp only [Option.bind_some, Option.map_some, Option.pure_def,
          Option.bind_eq_bind, Option.some_bind, Option.some.injEq] at h
        subst h
        have hm : (if r > acc then r else acc) = max acc r := by
          by_cases hx : r > acc
          · rw [if_pos hx, max_eq_right (le_of_lt hx)]
          · rw [if_neg hx, max_eq_left (le_of_not_lt hx)]
        simp only [latestRevisionGo, hy, hm]
        exact ih (max acc r) rs2 htl

/-- Metadata overlay carrying an explicit revision, as every metadata file
saved by `save_metadata` does. -/
def metaRev7 : MetaFile := ⟨none, none, none, none, none, none, none, none, some 7⟩

/-- Environment where the remote listing reports revision 3 but a local
metadata file carrying revision 7 also exists. -/
def envC7 : Env := ⟨some ["alpine-3.19.1-x86_64-bios-tiny-r3.yaml"], true, false, metaRev7,
  false, false, false, metaNull, ["import", "publish"]⟩

/-- C7 counterexample: `load_metadata` does not leave the listing-derived
maximum in `revision` — `load_local_metadata` runs afterwards and a local
metadata file overlays `revision` (here 7) over the listing maximum
(here 3). -/
theorem load_revision_counterexample :
    parseRevisionFile "alpine-3.19.1-x86_64-bios-tiny-r3.yaml" = some 3 ∧
    loadMetadata "upload" envC7 icNull = .ok (runLoad "upload" envC7 icNull) ∧
    (runLoad "upload" envC7 icNull).state.revision = 7 ∧ (7 : Nat) ≠ 3 :=
  ⟨by rfl, by rfl, by rfl, by decide⟩

/-- C7 (amended): for any step other than `final`, when the local metadata
file carries no `revision` key (in particular when none exists),
`load_metadata` leaves in `revision` exactly the value derived from the
Artifact Store listing: 0 when the listing raised or returned nothing, and
the parsed maximum (floored at 0) otherwise; a local metadata file carrying
`revision` overwrites this afterwards. -/
theorem load_revision_from_listing (step : String) (env : Env) (s0 : ICState) (lm : LoadOut)
    (hstep : step ≠ "final")
    (hnorev : env.oldMeta.revision = none)
    (hok : loadMetadata step env s0 = .ok lm) :
    (env.listing = none → lm.state.revision = 0) ∧
    (∀ ys rs, env.listing = some ys → ys.mapM parseRevisionFile = some rs →
      lm.state.revision = (rs.foldl max 0).toNat) := by
  have hq : (step != "final") = true := bne_iff_ne.mpr hstep
  simp only [loadMetadata, hq, if_true] at hok
  constructor
  · intro hl
    simp only [hl] at hok
    injection hok with h2
    subst h2
    by_cases hm : env.oldMetaExists = true
    · simp [hm, applyMeta, hnorev]
    · simp [hm]
  · intro ys rs hl hrs
    simp only [hl] at hok
    rw [latestRevisionGo_eq_max ys 0 rs hrs] at hok
    simp only [Except.map] at hok
    injection hok with h2
    subst h2
    repeat' split
    all_goals simp [applyMeta, hnorev]

/-- Witness for `load_revision_from_listing` with a two-entry listing. -/
theorem load_revision_from_listing_witness :
    (envMeta.listing = none → (runLoad "upload" envMeta icPublished).state.revision = 0) ∧
    (∀ ys rs, envMeta.listing = some ys → ys.mapM parseRevisionFile = some rs →
      (runLoad "upload" envMeta icPublished).state.revision = (rs.foldl max 0).toNat) :=
  load_revision_from_listing "upload" envMeta icPublished
    (runLoad "upload" envMeta icPublished) (by decide) (by rfl) (by rfl)

/-! ### Config Manager fan-out

`ImageConfigManager.refresh_state(step, only, skip, revise)`
(src/image_config_manager.py lines 155-178). -/

/-- Python `config_key.split('-')`. -/
def splitDashAux : List Char → List Char → List String
  | [], acc => [String.mk acc.reverse]
  | c :: cs, acc =>
    if c = '-' then String.mk acc.reverse :: splitDashAux cs []
    else splitDashAux cs (c :: acc)

/-- The dimension-key set of a cell: `set(ic.config_key.split('-'))`. -/
def dimKeysOf (key : String) : List String := splitDashAux key.data []

/-- `len(set(xs) & dim_keys)`: distinct members of `xs` lying in `dk`. -/
def pySetInterCard (xs dk : List String) : Nat :=
  ((xs.dedup).filter (fun x => dk.contains x)).length

/-- The only/skip filter: a cell is processed unless `only` is non-empty with
`len(set(only) & dim_keys) != len(only)`, or `skip` is non-empty with a
non-empty intersection. -/
def selectedCell (only skip : List String) (key : String) : Bool :=
  (only.isEmpty || pySetInterCard only (dimKeysOf key) == only.length) &&
  (skip.isEmpty || pySetInterCard skip (dimKeysOf key) == 0)

/-- One Image Config owned by the manager: its `config_key`, lifecycle state
and collaborator environment. -/
structure Cell where
  key : String
  state : ICState
  env : Env
deriving Repr, DecidableEq

/-- The manager loop: clear stale actions, filter by only/skip, call each
selected cell's `refresh_state` (an exception aborts the pass), and
accumulate whether any selected cell reported pending actions.  Returns the
per-cell outcome (`none` = filtered out) and the `has_actions` flag. -/
def managerGo (step : String) (only skip : List String) (revise : Bool) :
    List Cell → Except String (List (String × Option RefreshOut) × Bool)
  | [] => .ok ([], false)
  | c :: rest =>
    if selectedCell only skip c.key then
      match refreshState step revise c.env c.state with
      | .error e => .error e
      | .ok out =>
        match managerGo step only skip revise rest with
        | .error e => .error e
        | .ok pr => .ok ((c.key, some out) :: pr.1, (!out.actions.isEmpty || pr.2))
    else
      match managerGo step only skip revise rest with
      | .error e => .error e
      | .ok pr => .ok ((c.key, none) :: pr.1, pr.2)

/-- `ImageConfigManager.refresh_state(step, only, skip, revise)`. -/
def managerRefreshState (cells : List Cell) (step : String) (only skip : List String)
    (revise : Bool) : Except String (List (String × Option RefreshOut) × Bool) :=
  managerGo step only skip revise cells

theorem pySetInterCard_eq_length_iff (xs dk : List String) (h : xs.Nodup) :
    (pySetInterCard xs dk == xs.length) = true ↔ ∀ x ∈ xs, x ∈ dk := by
  unfold pySetInterCard
  rw [List.dedup_eq_self.mpr h, beq_iff_eq]
  constructor
  · intro hlen x hx
    have heq := (List.filter_sublist (l := xs) (p := fun x => dk.contains x)).eq_of_length hlen
    rw [← heq] at hx
    exact List.elem_iff.mp (List.mem_filter.mp hx).2
  · intro hall
    rw [List.filter_eq_self.mpr (fun a haa => contains_true_of_mem (hall a haa))]

theorem pySetInterCard_zero_iff (xs dk : List String) :
    (pySetInterCard xs dk == 0) = true ↔ ∀ x ∈ xs, x ∉ dk := by
  unfold pySetInterCard
  rw [beq_iff_eq, List.length_eq_zero, List.filter_eq_nil_iff]
  constructor
  · intro h x hx hmem
    exact h x (List.mem_dedup.mpr hx) (contains_true_of_mem hmem)
  · intro h x hx hc
    exact h x (List.mem_dedup.mp hx) (List.elem_iff.mp hc)

/-- With a duplicate-free `only`, the filter means: all `only` keys present
and no `skip` key present. -/
theorem selectedCell_iff (only skip : List String) (key : String) (h : only.Nodup) :
    selectedCell only skip key = true ↔
      ((∀ x ∈ only, x ∈ dimKeysOf key) ∧ (∀ x ∈ skip, x ∉ dimKeysOf key)) := by
  unfold selectedCell
  rw [Bool.and_eq_true, Bool.or_eq_true, Bool.or_eq_true]
  constructor
  · rintro ⟨h1, h2⟩
    constructor
    · rcases h1 with h1 | h1
      · intro x hx
        rw [List.isEmpty_iff] at h1
        subst h1
        exact absurd hx (List.not_mem_nil x)
      · exact (pySetInterCard_eq_length_iff only _ h).mp h1
    · rcases h2 with h2 | h2
      · intro x hx
        rw [List.isEmpty_iff] at h2
        subst h2
        exact absurd hx (List.not_mem_nil x)
      · exact (pySetInterCard_zero_iff skip _).mp h2
  · rintro ⟨h1, h2⟩
    exact ⟨Or.inr ((pySetInterCard_eq_length_iff only _ h).mpr h1),
      Or.inr ((pySetInterCard_zero_iff skip _).mpr h2)⟩

/-- C8 (amended): for a duplicate-free `only` list, the manager's
`refresh_state(step, only, skip, revise)` invokes the per-cell
`refresh_state` exactly on the Image Configs whose dimension-key set
contains every key of `only` and no key of `skip`, and its `has_actions`
result is true iff some invoked cell ended the pass with a non-empty action
list.  (The frozen claim holds only for duplicate-free `only`: the code
compares the *set* intersection size against `len(only)`, so duplicates in
`only` deselect every cell — see the counterexample.) -/
theorem manager_refresh_filter (cells : List Cell) (step : String) (only skip : List String)
    (revise : Bool) (res : List (String × Option RefreshOut)) (ha : Bool)
    (honly : only.Nodup)
    (hok : managerRefreshState cells step only skip revise = .ok (res, ha)) :
    (∀ p ∈ res, (p.2.isSome = true ↔
      ((∀ x ∈ only, x ∈ dimKeysOf p.1) ∧ (∀ x ∈ skip, x ∉ dimKeysOf p.1)))) ∧
    (ha = true ↔ ∃ p ∈ res, ∃ o, p.2 = some o ∧ o.actions ≠ []) := by
  induction cells generalizing res ha with
  | nil =>
    simp only [managerRefreshState, managerGo] at hok
    injection hok with h2
    injection h2 with hr hh
    subst hr
    subst hh
    constructor
    · intro p hp
      exact absurd hp (List.not_mem_nil p)
    · simp
  | cons c rest ih =>
    simp only [managerRefreshState, managerGo] at hok
    split at hok
    next hsel =>
      cases hr : refreshState step revise c.env c.state with
      | error e =>
        rw [hr] at hok
        exact Except.noConfusion hok
      | ok out =>
        simp only [hr] at hok
        cases hm : managerGo step only skip revise rest with
        | error e =>
          rw [hm] at hok
          exact Except.noConfusion hok
        | ok pr =>
          simp only [hm] at hok
          injection hok with h2
          injection h2 with hr2 hh2
          subst hr2
          subst hh2
          have ihx := ih pr.1 pr.2 (by simp only [managerRefreshState]; rw [hm])
          constructor
          · intro p hp
            rcases List.mem_cons.mp hp with hph | hpt
            · subst hph
              exact ⟨fun _ => (selectedCell_iff only skip c.key honly).mp hsel,
                fun _ => rfl⟩
            · exact ihx.1 p hpt
          · rw [Bool.or_eq_true]
            constructor
            · rintro (h1 | h1)
              · refine ⟨(c.key, some out), List.mem_cons_self _ _, out, rfl, ?_⟩
                intro hemp
                rw [hemp] at h1
                simp at h1
              · obtain ⟨p, hp, o, ho, hact⟩ := ihx.2.mp h1
                exact ⟨p, List.mem_cons_of_mem _ hp, o, ho, hact⟩
            · rintro ⟨p, hp, o, ho, hact⟩
              rcases List.mem_cons.mp hp with hph | hpt
              · subst hph
                left
                injection ho with ho2
                subst ho2
                have hne : out.actions.isEmpty = false := by
                  cases he : out.actions.isEmpty with
                  | false => rfl
                  | true => exact absurd (List.isEmpty_iff.mp he) hact
                rw [hne]
                rfl
              · right
                exact ihx.2.mpr ⟨p, hpt, o, ho, hact⟩
    next hsel =>
      cases hm : managerGo step only skip revise rest with
      | error e =>
        rw [hm] at hok
        exact Except.noConfusion hok
      | ok pr =>
        simp only [hm] at hok
        injection hok with h2
        injection h2 with hr2 hh2
        subst hr2
        subst hh2
        have ihx := ih pr.1 pr.2 (by simp only [managerRefreshState]; rw [hm])
        constructor
        · intro p hp
          rcases List.mem_cons.mp hp with hph | hpt
          · subst hph
            constructor
            · intro hs
              exact absurd hs (by simp)
            · intro hR
              exact absurd ((selectedCell_iff only skip c.key honly).mpr hR) hsel
          · exact ihx.1 p hpt
        · constructor
          · intro h1
            obtain ⟨p, hp, o, ho, hact⟩ := ihx.2.mp h1
            exact ⟨p, List.mem_cons_of_mem _ hp, o, ho, hact⟩
          · rintro ⟨p, hp, o, ho, hact⟩
            rcases List.mem_cons.mp hp with hph | hpt
            · subst hph
              exact Option.noConfusion ho
            · exact ihx.2.mpr ⟨p, hpt, o, ho, hact⟩

/-- A sample manager cell with `config_key` `x-y`. -/
def cellW : Cell := ⟨"x-y", icNull, envNull⟩

/-- C8 counterexample: with `only = ["x", "x"]` the cell `x-y` contains
every key listed in `only`, yet the manager filters it out (its per-cell
outcome is `none` and no `refresh_state` runs): the code compares the set
intersection size 1 with `len(only) = 2`. -/
theorem manager_only_duplicates_counterexample :
    (∀ x ∈ ["x", "x"], x ∈ dimKeysOf "x-y") ∧
    managerRefreshState [cellW] "state" ["x", "x"] [] false
      = .ok ([("x-y", none)], false) :=
  ⟨by decide, by rfl⟩

/-- Witness for `manager_refresh_filter` on one selected cell. -/
theorem manager_refresh_filter_witness :
    (∀ p ∈ [("x-y", some (runRefresh "state" false envNull icNull))],
      ((p.2.isSome = true) ↔
        ((∀ x ∈ ["x"], x ∈ dimKeysOf p.1) ∧ (∀ x ∈ ([] : List String), x ∉ dimKeysOf p.1)))) ∧
    (true = true ↔ ∃ p ∈ [("x-y", some (runRefresh "state" false envNull icNull))],
      ∃ o, p.2 = some o ∧ o.actions ≠ []) :=
  manager_refresh_filter [cellW] "state" ["x"] [] false
    [("x-y", some (runRefresh "state" false envNull icNull))] true (by decide) (by rfl)

/-! ### ImageStorage construction

`ImageStorage.__init__` (src/image_storage.py lines 42-66).  The input is
the result of `urllib.parse.urlparse(storage_url.removesuffix('/'))`:
`urlparse` itself is Python standard library, so its output is taken as the
given, with `portRaw` the raw text after the last colon of the netloc
(`none` when absent or empty) — accessing `url.port` parses it lazily and
raises `ValueError` for a non-integer or out-of-range value. -/
structure ParsedURL where
  scheme : String
  netloc : String
  path : String
  username : Option String
  hostname : Option String
  portRaw : Option String
deriving Repr, DecidableEq

/-- `urllib.parse`'s `SplitResult.port`: absent port is `None`; present port
text must parse as an integer in 0..65535, else `ValueError`. -/
def pyPort : Option String → Except String (Option Int)
  | none => .ok none
  | some s =>
    match pyInt s with
    | none => .error "ValueError: port not an integer"
    | some p => if 0 ≤ p ∧ p ≤ 65535 then .ok (some p) else .error "ValueError: port range"

/-- The fields `ImageStorage.__init__` derives from the URL. -/
structure StorageInit where
  scheme : String
  host : Option String
  port : Option Int
  user : Option String
  remote : String
deriving Repr, DecidableEq

/-- The OS home-directory lookup behind `pathlib`'s `expanduser`: the home
path of `user` (of the current user when `user` is empty), or `none` when it
cannot be determined. -/
structure OsEnv where
  homeOf : String → Option String

/-- `Path(p).expanduser()`: a path whose first component is `~` or `~user`
has that component replaced by the resolved home directory; an unresolvable
home raises `RuntimeError` ("Could not determine home directory").  Any
other path is returned unchanged and never raises. -/
def pyExpanduser (os : OsEnv) (p : String) : Except String String :=
  match p.data with
  | '~' :: rest =>
    match os.homeOf (String.mk (rest.takeWhile (fun c => c ≠ '/'))) with
    | none => .error "RuntimeError: could not determine home directory"
    | some h => .ok (h ++ String.mk (rest.dropWhile (fun c => c ≠ '/')))
  | _ => .ok p

/-- An OS with no resolvable home directories. -/
def osNull : OsEnv := ⟨fun _ => none⟩

example : pyExpanduser osNull "work/images" = .ok "work/images" := by rfl

example : pyExpanduser osNull "~nosuchuser/images"
    = .error "RuntimeError: could not determine home directory" := by rfl

/-- `ImageStorage.__init__`: reject a scheme outside `['', 'file', 'ssh']`
with `RuntimeError`; a file URL keeps `Path(netloc + path).expanduser()` as
the local remote path (`expanduser` may raise); an ssh URL reads `url.port`
(which may raise), `url.username` and `url.hostname`, and drops the leading
`/` of the path. -/
def imageStorageInit (os : OsEnv) (url : ParsedURL) : Except String StorageInit :=
  if ¬(url.scheme ∈ ["", "file", "ssh"]) then .error "RuntimeError: unsupported scheme"
  else if url.scheme ∈ ["", "file"] then
    match pyExpanduser os (url.netloc ++ url.path) with
    | .error e => .error e
    | .ok r => .ok ⟨"file", none, none, none, r⟩
  else
    match pyPort url.portRaw with
    | .error e => .error e
    | .ok p => .ok ⟨"ssh", url.hostname, p, url.username, String.mk (url.path.data.drop 1)⟩

/-- An ssh storage URL with a non-integer port,
`ssh://host:bad/images` — `urlparse` accepts it; `url.port` raises. -/
def urlBadPort : ParsedURL := ⟨"ssh", "host:bad", "/images", none, some "host", some "bad"⟩

/-- C9 counterexample: constructing an ImageStorage can raise even though
the URL's scheme is one of the supported `['', 'file', 'ssh']`: with scheme
`ssh` and a non-integer port the `url.port` access inside `__init__` raises
`ValueError`, refuting the claimed "raises if and only if the scheme is
unsupported". -/
theorem storage_scheme_counterexample :
    "ssh" ∈ ["", "file", "ssh"] ∧
    imageStorageInit osNull urlBadPort = .error "ValueError: port not an integer" :=
  ⟨by decide, by rfl⟩

/-- C9 (amended): constructing an ImageStorage raises if and only if the
URL's scheme is not one of `''`, `file`, `ssh`, or the scheme is a file
scheme and `expanduser` cannot resolve the `~user` head of `netloc + path`,
or the scheme is `ssh` and the URL carries a port that does not parse as an
integer in 0..65535; in particular every unsupported scheme is rejected at
construction time. -/
theorem storage_init_error_iff (os : OsEnv) (url : ParsedURL) :
    (∃ e, imageStorageInit os url = .error e) ↔
      (url.scheme ∉ ["", "file", "ssh"] ∨
        (url.scheme ∈ ["", "file"] ∧
          ∃ e, pyExpanduser os (url.netloc ++ url.path) = .error e) ∨
        (url.scheme = "ssh" ∧ ∃ e, pyPort url.portRaw = .error e)) := by
  unfold imageStorageInit
  by_cases h1 : url.scheme ∈ ["", "file", "ssh"]
  · rw [if_neg (not_not_intro h1)]
    by_cases h2 : url.scheme ∈ ["", "file"]
    · rw [if_pos h2]
      have hnssh : url.scheme ≠ "ssh" := by
        intro hh
        rw [hh] at h2
        exact absurd h2 (by decide)
      cases hx : pyExpanduser os (url.netloc ++ url.path) with
      | error e =>
        constructor
        · intro _
          exact Or.inr (Or.inl ⟨h2, e, rfl⟩)
        · intro _
          exact ⟨e, rfl⟩
      | ok r =>
        constructor
        · rintro ⟨e, he⟩
          exact Except.noConfusion he
        · rintro (h | ⟨_, e, he⟩ | ⟨hssh, _⟩)
          · exact absurd h1 h
          · exact Except.noConfusion he
          · exact absurd hssh hnssh
    · rw [if_neg h2]
      have hssh : url.scheme = "ssh" := by
        simp only [List.mem_cons, List.mem_singleton, List.not_mem_nil, or_false] at h1 h2
        tauto
      cases hp : pyPort url.portRaw with
      | error e =>
        constructor
        · intro _
          exact Or.inr (Or.inr ⟨hssh, e, rfl⟩)
        · intro _
          exact ⟨e, rfl⟩
      | ok p =>
        constructor
        · rintro ⟨e, he⟩
          exact Except.noConfusion he
        · rintro (h | ⟨hf, _⟩ | ⟨_, e, he⟩)
          · exact absurd h1 h
          · exact absurd hf h2
          · exact Except.noConfusion he
  · rw [if_pos h1]
    exact ⟨fun _ => Or.inl h1, fun _ => ⟨"RuntimeError: unsupported scheme", rfl⟩⟩

end ACI
